import Mathlib


/-!
# Multiplayer Watch — clock state machine, embedded from the source

A shallow embedding of the turn-based multi-player countdown clock.
The authoritative variant is the game route carrying both per-player flags
(`outOfTime` and `dead`): its state lives in the React hooks
(`players`, `currentPlayerIndex`, `isRunning`, `history`) and every mutation
happens inside one of the handlers (`handleStartStop`, `handleUndo`,
`handleAddTime`, `pushHistory`, `findNextActivePlayerIndex`, the timer
effect's interval callback, the player-card `onClick`, the Kill/Revive
`onClick`, `saveAllNames`, the New Game `onClick`).  Those handlers are
translated here as pure functions `GameState → GameState`.

JavaScript numbers holding seconds are modelled by `Int`: the source never
clamps `timeLeft` in `handleAddTime`, so it can go negative.
Snapshots pushed by `pushHistory` always carry `history: []` in the source
and `handleUndo` never reads a snapshot's `history` field, so snapshots are
modelled without it.
-/

structure Player where
  id : Nat
  name : String
  timeLeft : Int
  outOfTime : Bool
  dead : Bool
deriving Repr, DecidableEq

/-- A history snapshot: `pushHistory` stores `players` (deep-cloned),
`currentPlayerIndex` and `isRunning`; the stored `history` field is always
`[]` in the source and is never read back, so it is elided. -/
structure Snapshot where
  players : List Player
  currentPlayerIndex : Nat
  isRunning : Bool
deriving Repr, DecidableEq

structure GameState where
  players : List Player
  currentPlayerIndex : Nat
  isRunning : Bool
  history : List Snapshot
deriving Repr, DecidableEq

/-- The eligibility test used throughout the source:
`!p.outOfTime && !p.dead && p.timeLeft > 0`. -/
def Player.eligible (p : Player) : Bool :=
  !p.outOfTime && !p.dead && decide (p.timeLeft > 0)

/-- `findNextActivePlayerIndex(currentIdx, list)`: scan `i = 1 .. total`,
probing `(currentIdx + i) % total`; return the first index whose player is
not out of time, not dead, and has `timeLeft > 0`; otherwise `null`. -/
def findNextActivePlayerIndex (currentIdx : Nat) (list : List Player) : Option Nat :=
  let total := list.length
  (List.range total).findSome? fun j =>
    let next := (currentIdx + (j + 1)) % total
    match list[next]? with
    | some p => if p.eligible then some next else none
    | none => none

/-- `pushHistory()`: append a snapshot of the live state to the stack
(`setHistory((prev) => [...prev, snapshot])`). -/
def pushHistory (s : GameState) : GameState :=
  { s with history := s.history ++ [⟨s.players, s.currentPlayerIndex, s.isRunning⟩] }

/-- `handleUndo()`: no-op on empty history; otherwise pop the most recent
snapshot and restore `players`, `currentPlayerIndex`, `isRunning` from it. -/
def handleUndo (s : GameState) : GameState :=
  match s.history.getLast? with
  | none => s
  | some prev =>
      { players := prev.players
        currentPlayerIndex := prev.currentPlayerIndex
        isRunning := prev.isRunning
        history := s.history.dropLast }

/-- `handleStartStop()`: refuse unless some player is alive with time left;
otherwise push history and flip `isRunning`. -/
def handleStartStop (s : GameState) : GameState :=
  if s.players.any Player.eligible then
    { pushHistory s with isRunning := !s.isRunning }
  else s

/-- `handleAddTime(playerId, seconds)`: push history, locate the player by id
(`findIndex`), add `seconds` to its `timeLeft` (no clamping in the source),
and clear `outOfTime` when the result is positive. -/
def handleAddTime (playerId : Nat) (seconds : Int) (s : GameState) : GameState :=
  match (pushHistory s).players.findIdx? (fun p => p.id == playerId) with
  | none => pushHistory s
  | some idx =>
      match (pushHistory s).players[idx]? with
      | none => pushHistory s
      | some p =>
          { pushHistory s with
              players := (pushHistory s).players.set idx
                { p with
                    timeLeft := p.timeLeft + seconds
                    outOfTime := if p.timeLeft + seconds > 0 then false else p.outOfTime } }

/-- The timer effect's interval callback, delivered once per second while
`isRunning`: if the current seat's player is neither out of time nor dead,
decrement its `timeLeft` (floored at 0 via `Math.max`); if the new value is
exactly 0, mark the player out of time, move `currentPlayerIndex` to the next
active player when one exists, and pause. -/
def tick (s : GameState) : GameState :=
  if s.isRunning then
    match s.players[s.currentPlayerIndex]? with
    | none => s
    | some active =>
        if !active.outOfTime && !active.dead then
          -- `newTime = active.timeLeft - 1`, clamped by `Math.max(newTime, 0)`
          if max (active.timeLeft - 1) 0 = 0 then
            { s with
                players := s.players.set s.currentPlayerIndex
                  { active with timeLeft := max (active.timeLeft - 1) 0, outOfTime := true }
                currentPlayerIndex :=
                  (findNextActivePlayerIndex s.currentPlayerIndex
                      (s.players.set s.currentPlayerIndex
                        { active with
                            timeLeft := max (active.timeLeft - 1) 0
                            outOfTime := true })).getD
                    s.currentPlayerIndex
                isRunning := false }
          else
            { s with
                players := s.players.set s.currentPlayerIndex
                  { active with timeLeft := max (active.timeLeft - 1) 0 } }
        else s
  else s

/-- The player-card `onClick`, fired on the card at `currentPlayerIndex`
(cards at other seats return early because `isActive` is false): ignore dead
or out-of-time players; while running, push history, add the increment to the
current player when `increment > 0`, and move to the next active player
(computed, as in the source closure, from the pre-increment `players`);
while paused, fall through to `handleStartStop`. -/
def handleSeatClick (increment : Int) (s : GameState) : GameState :=
  match s.players[s.currentPlayerIndex]? with
  | none => s
  | some player =>
      if player.dead || player.outOfTime then s
      else if s.isRunning then
        { pushHistory s with
            players :=
              if increment > 0 && !player.outOfTime && !player.dead then
                s.players.set s.currentPlayerIndex
                  { player with timeLeft := player.timeLeft + increment }
              else s.players
            currentPlayerIndex :=
              (findNextActivePlayerIndex s.currentPlayerIndex s.players).getD
                s.currentPlayerIndex }
      else handleStartStop s

/-- The toggled player list produced by the Kill/Revive `onClick`:
`players.map((p) => p.id === player.id ? { ...p, dead: !p.dead } : p)`. -/
def killToggled (playerId : Nat) (players : List Player) : List Player :=
  players.map fun p => if p.id == playerId then { p with dead := !p.dead } else p

/-- The Kill/Revive `onClick` for the card of the player with `playerId`
(looked up as the rendered list entry): push history, toggle `dead`; if a
live player was killed while running, pause and advance to the next active
player, firing the `"No active players left!"` alert (the returned `Bool`)
when none exists; if a dead player was revived, make `player.id` the current
index and pause. -/
def toggleElimination (playerId : Nat) (s : GameState) : GameState × Bool :=
  match s.players.find? (fun p => p.id == playerId) with
  | none => (s, false)
  | some player =>
      if !player.dead && s.isRunning then
        match findNextActivePlayerIndex s.currentPlayerIndex (killToggled playerId s.players) with
        | some nextIdx =>
            ({ pushHistory s with
                players := killToggled playerId s.players
                isRunning := false
                currentPlayerIndex := nextIdx },
             false)
        | none =>
            ({ pushHistory s with
                players := killToggled playerId s.players
                isRunning := false },
             true)
      else if player.dead then
        ({ pushHistory s with
            players := killToggled playerId s.players
            currentPlayerIndex := playerId
            isRunning := false },
         false)
      else
        ({ pushHistory s with players := killToggled playerId s.players }, false)

/-- `saveAllNames()`: push history, then replace `players` with the staged
`editPlayers` copy from the rename modal. -/
def saveAllNames (editPlayers : List Player) (s : GameState) : GameState :=
  { pushHistory s with players := editPlayers }

/-- The staged copy the rename modal commits when nothing else interleaves:
a clone of `players` with each name replaced through
`handleModalNameChange` (keyed by id). -/
def renameWith (f : Nat → String) (players : List Player) : List Player :=
  players.map fun p => { p with name := f p.id }

/-- The New Game `onClick`: reset each live player's `timeLeft` to the
configured total and clear `outOfTime`; dead players keep `timeLeft = 0` and
`outOfTime = true`; reset the index, pause, and clear the history stack. -/
def newGame (totalTime : Int) (s : GameState) : GameState :=
  { players := s.players.map fun p =>
      { p with
          timeLeft := if p.dead then 0 else totalTime
          outOfTime := if p.dead then true else false }
    currentPlayerIndex := 0
    isRunning := false
    history := [] }

/-- The fresh state built on mount when no saved game exists:
`numPlayers` players with sequential ids, `timeLeft = totalTime`, both flags
false, index 0, paused, empty history. -/
def initGame (numPlayers : Nat) (totalTime : Int) : GameState :=
  { players := (List.range numPlayers).map fun idx =>
      { id := idx
        name := "Player " ++ toString (idx + 1)
        timeLeft := totalTime
        outOfTime := false
        dead := false }
    currentPlayerIndex := 0
    isRunning := false
    history := [] }

/-- The drag-and-drop `reorder(list, startIndex, endIndex)` helper: copy the
list, `splice(startIndex, 1)` the moved player out, then
`splice(endIndex, 0, removed)` it back in.  JavaScript's `splice` clamps an
insertion position past the end to the array length (it appends), hence the
`min`.  A `startIndex` past the end would splice out nothing and insert
`undefined`, which has no counterpart in a `List Player`; the drag source
index always addresses an existing row, so that branch leaves the list
unchanged. -/
def reorderList (list : List Player) (startIndex endIndex : Nat) : List Player :=
  match list[startIndex]? with
  | none => list
  | some removed =>
      (list.eraseIdx startIndex).insertIdx
        (min endIndex (list.eraseIdx startIndex).length) removed

/-- `handleDragEnd`: return early when the drop has no destination or
`source.index === destination.index`; otherwise push history, move the
player with `reorder`, and remap `currentPlayerIndex` — note the inclusive
destination bounds in the source:
`prev > source.index && prev <= destination.index` decrements, and
`prev < source.index && prev >= destination.index` increments. -/
def handleDragEnd (srcIdx dstIdx : Nat) (s : GameState) : GameState :=
  if srcIdx = dstIdx then s
  else
    { pushHistory s with
        players := reorderList s.players srcIdx dstIdx
        currentPlayerIndex :=
          if s.currentPlayerIndex = srcIdx then dstIdx
          else if srcIdx < s.currentPlayerIndex ∧ s.currentPlayerIndex ≤ dstIdx then
            s.currentPlayerIndex - 1
          else if s.currentPlayerIndex < srcIdx ∧ dstIdx ≤ s.currentPlayerIndex then
            s.currentPlayerIndex + 1
          else s.currentPlayerIndex }

/-- The next-active-player algorithm as the spec words it: among the
candidate seats `(currentIdx + 1) % n, (currentIdx + 2) % n, …` (`n` steps),
the first whose player is `Active` with `timeLeft > 0`. -/
def nextActiveSpec (currentIdx : Nat) (list : List Player) : Option Nat :=
  ((List.range list.length).map fun i => (currentIdx + (i + 1)) % list.length).find?
    fun idx =>
      match list[idx]? with
      | some p => p.eligible
      | none => false

/-! ## The operation step relation and reachability -/

/-- One user- or timer-triggered event of the clock state machine, with
`addTime` excluded.  `renameAllStep` commits the rename modal's staged copy;
`reorderStep` is the drag-and-drop `handleDragEnd`. -/
inductive StepNoAdd (totalTime : Int) : GameState → GameState → Prop
  | tickStep (s) : StepNoAdd totalTime s (tick s)
  | startStopStep (s) : StepNoAdd totalTime s (handleStartStop s)
  | seatClickStep (inc : Int) (s) : StepNoAdd totalTime s (handleSeatClick inc s)
  | toggleElimStep (pid : Nat) (s) : StepNoAdd totalTime s (toggleElimination pid s).1
  | renameAllStep (f : Nat → String) (s) :
      StepNoAdd totalTime s (saveAllNames (renameWith f s.players) s)
  | newGameStep (s) : StepNoAdd totalTime s (newGame totalTime s)
  | reorderStep (i j : Nat) (s) : StepNoAdd totalTime s (handleDragEnd i j s)
  | undoStep (s) : StepNoAdd totalTime s (handleUndo s)

/-- Every event of the clock state machine, `addTime` included. -/
inductive Step (totalTime : Int) : GameState → GameState → Prop
  | base {s s'} : StepNoAdd totalTime s s' → Step totalTime s s'
  | addTimeStep (pid : Nat) (sec : Int) (s) : Step totalTime s (handleAddTime pid sec s)

/-- States reachable from a fresh game without ever calling `addTime`. -/
inductive ReachableNoAdd (numPlayers : Nat) (totalTime : Int) : GameState → Prop
  | init : ReachableNoAdd numPlayers totalTime (initGame numPlayers totalTime)
  | step {s s'} : ReachableNoAdd numPlayers totalTime s → StepNoAdd totalTime s s' →
      ReachableNoAdd numPlayers totalTime s'

/-- States reachable from a fresh game through arbitrary operations. -/
inductive Reachable (numPlayers : Nat) (totalTime : Int) : GameState → Prop
  | init : Reachable numPlayers totalTime (initGame numPlayers totalTime)
  | step {s s'} : Reachable numPlayers totalTime s → Step totalTime s s' →
      Reachable numPlayers totalTime s'

/-! ## Invariants -/

/-- The per-player half of the spec's invariant, in the two-flag encoding:
a player who is neither out of time nor dead has `timeLeft > 0`, and a
player at `timeLeft = 0` is out of time or dead. -/
def PlayerClaimInv (p : Player) : Prop :=
  (p.outOfTime = false ∧ p.dead = false → 0 < p.timeLeft) ∧
  (p.timeLeft = 0 → p.outOfTime = true ∨ p.dead = true)

/-- The spec's invariant over a whole state. -/
def ClaimInv (s : GameState) : Prop :=
  ∀ p ∈ s.players, PlayerClaimInv p

/-- The strengthened (inductive) per-player invariant that the `addTime`-free
system maintains: `timeLeft` never negative, and positive whenever the
player is not flagged out of time. -/
def PlayerInv (p : Player) : Prop :=
  0 ≤ p.timeLeft ∧ (p.outOfTime = false → 0 < p.timeLeft)

def PlayersInv (l : List Player) : Prop := ∀ p ∈ l, PlayerInv p

/-- The strengthened invariant over a state, including every history
snapshot (so that `undo` restores only invariant-satisfying states). -/
def StrongInv (s : GameState) : Prop :=
  PlayersInv s.players ∧ ∀ snap ∈ s.history, PlayersInv snap.players

/-! ## Invariant preservation -/

lemma playerInv_claimInv {p : Player} (h : PlayerInv p) : PlayerClaimInv p := by
  obtain ⟨h0, h1⟩ := h
  refine ⟨fun hp => h1 hp.1, fun ht => ?_⟩
  by_cases hp : p.outOfTime = false
  · have := h1 hp; omega
  · left; revert hp; cases p.outOfTime <;> simp

lemma strongInv_pushHistory {s : GameState} (h : StrongInv s) : StrongInv (pushHistory s) := by
  refine ⟨h.1, fun snap hs => ?_⟩
  simp only [pushHistory, List.mem_append, List.mem_singleton] at hs
  rcases hs with hs | rfl
  · exact h.2 _ hs
  · exact h.1

lemma strongInv_tick {s : GameState} (h : StrongInv s) : StrongInv (tick s) := by
  unfold tick
  split
  · split
    · exact h
    · rename_i active heq
      split
      · rename_i hflags
        split
        · refine ⟨fun q hq => ?_, h.2⟩
          rcases List.mem_or_eq_of_mem_set hq with hq | rfl
          · exact h.1 _ hq
          · exact ⟨le_max_right _ _, fun hc => by simp at hc⟩
        · rename_i ht0
          refine ⟨fun q hq => ?_, h.2⟩
          rcases List.mem_or_eq_of_mem_set hq with hq | rfl
          · exact h.1 _ hq
          · refine ⟨le_max_right _ _, fun _ => ?_⟩
            have hge : (0:Int) ≤ max (active.timeLeft - 1) 0 := le_max_right _ _
            simp only [Player.mk.injEq] at ht0 ⊢
            omega
      · exact h
  · exact h

lemma strongInv_handleStartStop {s : GameState} (h : StrongInv s) :
    StrongInv (handleStartStop s) := by
  unfold handleStartStop
  split
  · exact strongInv_pushHistory h
  · exact h

lemma strongInv_handleSeatClick {inc : Int} {s : GameState} (h : StrongInv s) :
    StrongInv (handleSeatClick inc s) := by
  unfold handleSeatClick
  split
  · exact h
  · rename_i player heq
    split
    · exact h
    · split
      · refine ⟨?_, (strongInv_pushHistory h).2⟩
        split
        · rename_i hcond
          intro q hq
          rcases List.mem_or_eq_of_mem_set hq with hq | rfl
          · exact h.1 _ hq
          · have hp : PlayerInv player := h.1 _ (List.getElem?_mem heq)
            simp only [Bool.and_eq_true, decide_eq_true_eq, Bool.not_eq_true'] at hcond
            have hpos : 0 < player.timeLeft := hp.2 hcond.1.2
            have hinc : 0 < inc := hcond.1.1
            exact ⟨by change (0:Int) ≤ player.timeLeft + inc; omega,
                   fun _ => by change (0:Int) < player.timeLeft + inc; omega⟩
        · exact h.1
      · exact strongInv_handleStartStop h

lemma playersInv_killToggled {pid : Nat} {l : List Player} (h : PlayersInv l) :
    PlayersInv (killToggled pid l) := by
  intro q hq
  simp only [killToggled, List.mem_map] at hq
  obtain ⟨p, hp, rfl⟩ := hq
  have := h _ hp
  split <;> exact this

lemma strongInv_toggleElim {pid : Nat} {s : GameState} (h : StrongInv s) :
    StrongInv (toggleElimination pid s).1 := by
  unfold toggleElimination
  split
  · exact h
  · split
    · split
      · exact ⟨playersInv_killToggled h.1, (strongInv_pushHistory h).2⟩
      · exact ⟨playersInv_killToggled h.1, (strongInv_pushHistory h).2⟩
    · split
      · exact ⟨playersInv_killToggled h.1, (strongInv_pushHistory h).2⟩
      · exact ⟨playersInv_killToggled h.1, (strongInv_pushHistory h).2⟩

lemma strongInv_renameAll {f : Nat → String} {s : GameState} (h : StrongInv s) :
    StrongInv (saveAllNames (renameWith f s.players) s) := by
  refine ⟨?_, (strongInv_pushHistory h).2⟩
  intro q hq
  simp only [saveAllNames, renameWith, List.mem_map] at hq
  obtain ⟨p, hp, rfl⟩ := hq
  exact h.1 p hp

lemma strongInv_newGame {tt : Int} {s : GameState} (htt : 0 < tt) (_h : StrongInv s) :
    StrongInv (newGame tt s) := by
  refine ⟨?_, by intro snap hs; simp [newGame] at hs⟩
  intro q hq
  simp only [newGame, List.mem_map] at hq
  obtain ⟨p, hp, rfl⟩ := hq
  by_cases hd : p.dead
  · simp [PlayerInv, hd]
  · simp [PlayerInv, hd]
    omega

lemma strongInv_handleDragEnd {i j : Nat} {s : GameState} (h : StrongInv s) :
    StrongInv (handleDragEnd i j s) := by
  unfold handleDragEnd
  split
  · exact h
  · refine ⟨?_, (strongInv_pushHistory h).2⟩
    intro q hq
    unfold reorderList at hq
    split at hq
    · exact h.1 _ hq
    · rename_i moved heq
      rcases (List.mem_insertIdx (min_le_right _ _)).mp hq with rfl | hq
      · exact h.1 _ (List.getElem?_mem heq)
      · exact h.1 _ (List.eraseIdx_subset _ _ hq)

lemma strongInv_handleUndo {s : GameState} (h : StrongInv s) : StrongInv (handleUndo s) := by
  unfold handleUndo
  split
  · exact h
  · rename_i prev heq
    refine ⟨h.2 _ (List.mem_of_mem_getLast? heq), fun snap hs => ?_⟩
    exact h.2 _ ((List.dropLast_sublist _).subset hs)

lemma strongInv_stepNoAdd {tt : Int} {s s' : GameState} (htt : 0 < tt)
    (h : StrongInv s) (hstep : StepNoAdd tt s s') : StrongInv s' := by
  cases hstep with
  | tickStep s => exact strongInv_tick h
  | startStopStep s => exact strongInv_handleStartStop h
  | seatClickStep inc s => exact strongInv_handleSeatClick h
  | toggleElimStep pid s => exact strongInv_toggleElim h
  | renameAllStep f s => exact strongInv_renameAll h
  | newGameStep s => exact strongInv_newGame htt h
  | reorderStep i j s => exact strongInv_handleDragEnd h
  | undoStep s => exact strongInv_handleUndo h

lemma strongInv_initGame {np : Nat} {tt : Int} (htt : 0 < tt) :
    StrongInv (initGame np tt) := by
  refine ⟨?_, by intro snap hs; simp [initGame] at hs⟩
  intro q hq
  simp only [initGame, List.mem_map] at hq
  obtain ⟨idx, _, rfl⟩ := hq
  exact ⟨by change (0:Int) ≤ tt; omega, fun _ => htt⟩

lemma strongInv_reachableNoAdd {np : Nat} {tt : Int} {s : GameState} (htt : 0 < tt)
    (h : ReachableNoAdd np tt s) : StrongInv s := by
  induction h with
  | init => exact strongInv_initGame htt
  | step _ hstep ih => exact strongInv_stepNoAdd htt ih hstep

/-! ## C1 — the clock invariant -/

/-- **C1** (amended): for every state reachable from a fresh game without
`addTime`, and after every further non-`addTime` operation, every player
satisfies the two-flag invariant: `outOfTime = false` and `dead = false`
imply `timeLeft > 0`, and `timeLeft = 0` implies `outOfTime` or `dead`.
(`addTime` must be excluded: it can drive an active player's `timeLeft` to 0
or below without flagging them, see the counterexample.) -/
theorem clockInvariant_addTimeFree (np : Nat) (tt : Int) (s : GameState)
    (htt : 0 < tt) (hs : ReachableNoAdd np tt s) :
    ClaimInv s ∧ ∀ s', StepNoAdd tt s s' → ClaimInv s' := by
  have key : ∀ t : GameState, StrongInv t → ClaimInv t :=
    fun t ht p hp => playerInv_claimInv (ht.1 p hp)
  have h1 := strongInv_reachableNoAdd htt hs
  exact ⟨key _ h1, fun s' hstep => key _ (strongInv_stepNoAdd htt h1 hstep)⟩

/-- Witness for C1 (amended) at a concrete game: two players, one second
each; the invariant holds at the fresh state and after one tick. -/
theorem clockInvariant_addTimeFree_witness :
    ClaimInv (initGame 2 1) ∧ ClaimInv (tick (initGame 2 1)) :=
  ⟨(clockInvariant_addTimeFree 2 1 _ (by decide) ReachableNoAdd.init).1,
   (clockInvariant_addTimeFree 2 1 _ (by decide) ReachableNoAdd.init).2 _
     (StepNoAdd.tickStep _)⟩

/-- Counterexample to C1 as stated: the fresh two-player game (reachable) hit
with the operation `addTime(0, -300)` produces a state whose player 0 has
`timeLeft = 0` with `outOfTime = false` and `dead = false` — the invariant
fails after an operation applied to a reachable state. -/
theorem clockInvariant_cex :
    Reachable 2 300 (initGame 2 300) ∧
    Step 300 (initGame 2 300) (handleAddTime 0 (-300) (initGame 2 300)) ∧
    ¬ ClaimInv (handleAddTime 0 (-300) (initGame 2 300)) := by
  refine ⟨Reachable.init, Step.addTimeStep 0 (-300) _, fun hinv => ?_⟩
  exact absurd ((hinv ⟨0, "Player 1", 0, false, false⟩ (by decide)).1 ⟨rfl, rfl⟩)
    (by decide)

/-! ## C6 — the next-active-player search -/

lemma findSome?_guard_eq_find?_map {α : Type} (f : α → Option Nat) (g : α → Nat)
    (pr : Nat → Bool) (hf : ∀ j, f j = if pr (g j) then some (g j) else none) :
    ∀ l : List α, l.findSome? f = (l.map g).find? pr := by
  intro l
  induction l with
  | nil => rfl
  | cons a t ih =>
      by_cases hp : pr (g a) <;>
        simp [List.findSome?_cons, List.find?_cons, hf, hp, ih]

/-- **C6**: `findNextActivePlayerIndex` returns the first index among
`(currentIdx+1) % n, (currentIdx+2) % n, …` (up to `n` steps) whose player
is active (not out of time, not dead) with `timeLeft > 0` — exactly the
spec's candidate-scan `nextActiveSpec` — and it returns `none` precisely
when no seat in a full cycle qualifies. -/
theorem findNextActivePlayerIndex_correct (c : Nat) (list : List Player) :
    findNextActivePlayerIndex c list = nextActiveSpec c list ∧
    (findNextActivePlayerIndex c list = none ↔
      ∀ i ∈ (List.range list.length).map (fun i => (c + (i + 1)) % list.length),
        ∀ p, list[i]? = some p → p.eligible = false) := by
  have hmain : findNextActivePlayerIndex c list = nextActiveSpec c list := by
    unfold findNextActivePlayerIndex nextActiveSpec
    refine findSome?_guard_eq_find?_map _ _ _ (fun j => ?_) _
    cases hj : list[(c + (j + 1)) % list.length]? with
    | none => simp [hj]
    | some q => by_cases hq : q.eligible <;> simp [hj, hq]
  refine ⟨hmain, ?_⟩
  rw [hmain]
  unfold nextActiveSpec
  rw [List.find?_eq_none]
  constructor
  · intro h i hi p hp
    have := h i hi
    simp only [hp] at this
    simpa using this
  · intro h x hx
    cases hp : list[x]? with
    | none => simp [hp]
    | some q => simp [hp, h x hx q hp]

/-! ## C5 — tick -/

/-- **C5**: while running with an active current player, `tick` decrements
that player's `timeLeft` by 1 floored at 0; when the decrement reaches
exactly 0 it also flags the player out of time, pauses, and moves
`currentPlayerIndex` to the next eligible seat when one exists, leaving it
unchanged otherwise; in particular, with 2 players of 1 second each and the
clock running, one tick leaves player 0 out of time at 0 seconds, the index
at 1, and the clock paused. -/
theorem tick_countdown (s : GameState) (p : Player)
    (hp : s.players[s.currentPlayerIndex]? = some p)
    (hout : p.outOfTime = false) (hdead : p.dead = false)
    (hrun : s.isRunning = true) :
    ((tick s).players[s.currentPlayerIndex]? =
      some { p with
               timeLeft := max (p.timeLeft - 1) 0
               outOfTime := if max (p.timeLeft - 1) 0 = 0 then true else false }) ∧
    (max (p.timeLeft - 1) 0 = 0 →
      (tick s).isRunning = false ∧
      (∀ j, findNextActivePlayerIndex s.currentPlayerIndex (tick s).players = some j →
        (tick s).currentPlayerIndex = j) ∧
      (findNextActivePlayerIndex s.currentPlayerIndex (tick s).players = none →
        (tick s).currentPlayerIndex = s.currentPlayerIndex)) ∧
    (max (p.timeLeft - 1) 0 ≠ 0 →
      (tick s).isRunning = true ∧ (tick s).currentPlayerIndex = s.currentPlayerIndex) ∧
    tick { players := [⟨0, "Player 1", 1, false, false⟩, ⟨1, "Player 2", 1, false, false⟩]
           currentPlayerIndex := 0, isRunning := true, history := [] } =
      { players := [⟨0, "Player 1", 0, true, false⟩, ⟨1, "Player 2", 1, false, false⟩]
        currentPlayerIndex := 1, isRunning := false, history := [] } := by
  have hlt : s.currentPlayerIndex < s.players.length :=
    List.getElem?_eq_some.mp hp |>.1
  by_cases h0 : max (p.timeLeft - 1) 0 = 0
  · have htick : tick s =
        { s with
            players := s.players.set s.currentPlayerIndex
              { p with timeLeft := max (p.timeLeft - 1) 0, outOfTime := true }
            currentPlayerIndex :=
              (findNextActivePlayerIndex s.currentPlayerIndex
                  (s.players.set s.currentPlayerIndex
                    { p with timeLeft := max (p.timeLeft - 1) 0, outOfTime := true })).getD
                s.currentPlayerIndex
            isRunning := false } := by
      unfold tick
      simp [hrun, hp, hout, hdead, h0]
    refine ⟨?_, fun _ => ?_, fun hne => absurd h0 hne, by decide⟩
    · rw [htick]
      simp [List.getElem?_set_self hlt, h0]
    · rw [htick]
      refine ⟨rfl, ?_, ?_⟩
      · intro j hj
        simp [hj]
      · intro hj
        simp [hj]
  · have htick : tick s =
        { s with
            players := s.players.set s.currentPlayerIndex
              { p with timeLeft := max (p.timeLeft - 1) 0 } } := by
      unfold tick
      simp [hrun, hp, hout, hdead, h0]
    refine ⟨?_, fun h0' => absurd h0' h0, fun _ => ?_, by decide⟩
    · rw [htick]
      simp [List.getElem?_set_self hlt, h0, hout]
    · rw [htick]
      exact ⟨hrun, rfl⟩

/-- Witness for C5: the two-player one-second scenario discharges every
hypothesis of `tick_countdown` at a concrete state. -/
theorem tick_countdown_witness :
    (tick { players := [⟨0, "Player 1", 1, false, false⟩, ⟨1, "Player 2", 1, false, false⟩]
            currentPlayerIndex := 0, isRunning := true, history := [] }).players[0]? =
      some ⟨0, "Player 1", 0, true, false⟩ := by
  have h := tick_countdown
    { players := [⟨0, "Player 1", 1, false, false⟩, ⟨1, "Player 2", 1, false, false⟩]
      currentPlayerIndex := 0, isRunning := true, history := [] }
    ⟨0, "Player 1", 1, false, false⟩ (by decide) rfl rfl rfl
  simpa using h.1

/-! ## C7 — the per-turn increment -/

lemma tick_players_cases (t : GameState) :
    (tick t).players = t.players ∨
    ∃ active, t.players[t.currentPlayerIndex]? = some active ∧
      ((tick t).players = t.players.set t.currentPlayerIndex
          { active with timeLeft := max (active.timeLeft - 1) 0, outOfTime := true } ∨
       (tick t).players = t.players.set t.currentPlayerIndex
          { active with timeLeft := max (active.timeLeft - 1) 0 }) := by
  unfold tick
  split
  · split
    · left; rfl
    · split
      · split
        · right; exact ⟨_, by assumption, Or.inl rfl⟩
        · right; exact ⟨_, by assumption, Or.inr rfl⟩
      · left; rfl
  · left; rfl

/-- **C7**: with `incrementSeconds > 0` and an active current seat while
running, one `advanceTurn` click adds the increment to the current player's
`timeLeft` exactly once (the new player list is the old one with only that
seat's time raised by the increment, before the index moves); a `tick` —
including the expiry tick — leaves every player's `timeLeft` either
unchanged or equal to the clamped decrement `max (timeLeft - 1) 0`, never
adding any increment. -/
theorem increment_once_per_advanceTurn (s : GameState) (inc : Int) (p : Player)
    (hp : s.players[s.currentPlayerIndex]? = some p)
    (hout : p.outOfTime = false) (hdead : p.dead = false)
    (hrun : s.isRunning = true) (hinc : 0 < inc) :
    ((handleSeatClick inc s).players =
      s.players.set s.currentPlayerIndex { p with timeLeft := p.timeLeft + inc }) ∧
    (∀ t : GameState, ∀ i : Nat, ∀ q q' : Player,
      t.players[i]? = some q → (tick t).players[i]? = some q' →
      q'.timeLeft = q.timeLeft ∨ q'.timeLeft = max (q.timeLeft - 1) 0) := by
  constructor
  · unfold handleSeatClick
    simp [hp, hout, hdead, hrun, hinc]
  · intro t i q q' hq hq'
    rcases tick_players_cases t with hcase | ⟨active, hact, hcase⟩
    · rw [hcase, hq] at hq'
      left; injection hq' with h; rw [h]
    · by_cases hi : i = t.currentPlayerIndex
      · have hqa : q = active := by
          rw [hi, hact] at hq
          exact (Option.some.inj hq).symm
        have hlt : t.currentPlayerIndex < t.players.length :=
          (List.getElem?_eq_some.mp hact).1
        rcases hcase with h | h <;>
          · rw [h, hi, List.getElem?_set_self hlt] at hq'
            injection hq' with h2
            right; rw [← h2, hqa]
      · rcases hcase with h | h <;>
          · rw [h, List.getElem?_set_ne (fun he => hi he.symm), hq] at hq'
            left; injection hq' with h2; rw [h2]

/-- Witness for C7: a concrete running two-player game with increment 5;
the click raises the current player's time from 10 to 15, and the expiry
tick on a one-second game only clamps. -/
theorem increment_once_per_advanceTurn_witness :
    (handleSeatClick 5
        { players := [⟨0, "Player 1", 10, false, false⟩, ⟨1, "Player 2", 10, false, false⟩]
          currentPlayerIndex := 0, isRunning := true, history := [] }).players =
      [⟨0, "Player 1", 15, false, false⟩, ⟨1, "Player 2", 10, false, false⟩] := by
  have h := (increment_once_per_advanceTurn
    { players := [⟨0, "Player 1", 10, false, false⟩, ⟨1, "Player 2", 10, false, false⟩]
      currentPlayerIndex := 0, isRunning := true, history := [] }
    5 ⟨0, "Player 1", 10, false, false⟩ rfl rfl rfl rfl (by decide)).1
  exact h

/-! ## C2, C3 — addTime -/

lemma handleAddTime_found (s : GameState) (pid : Nat) (delta : Int) (i : Nat) (p : Player)
    (hidx : s.players.findIdx? (fun q => q.id == pid) = some i)
    (hp : s.players[i]? = some p) :
    handleAddTime pid delta s =
      { players := s.players.set i
          { p with
              timeLeft := p.timeLeft + delta
              outOfTime := if p.timeLeft + delta > 0 then false else p.outOfTime }
        currentPlayerIndex := s.currentPlayerIndex
        isRunning := s.isRunning
        history := s.history ++ [⟨s.players, s.currentPlayerIndex, s.isRunning⟩] } := by
  unfold handleAddTime pushHistory
  simp only [hidx, hp]

lemma findIdx?_set_of_pred {l : List Player} {pr : Player → Bool} {i : Nat} {x : Player}
    (h : l.findIdx? pr = some i) (hx : pr x = true) :
    (l.set i x).findIdx? pr = some i := by
  obtain ⟨hlt, hpi, hprev⟩ := List.findIdx?_eq_some_iff_getElem.mp h
  apply List.findIdx?_eq_some_iff_getElem.mpr
  refine ⟨by simpa using hlt, ?_, ?_⟩
  · simpa [List.getElem_set] using hx
  · intro j hji
    have hne : i ≠ j := by omega
    simpa [List.getElem_set, hne] using hprev j hji

/-- **C3** (amended): for every present `playerId` and every `deltaSeconds`
(possibly negative), `addTime` sets that player's `timeLeft` to
`timeLeft + deltaSeconds` with no clamping — the result can be negative —
and clears `outOfTime` exactly when the result is positive. -/
theorem addTime_unclamped (s : GameState) (pid : Nat) (delta : Int) (i : Nat) (p : Player)
    (hidx : s.players.findIdx? (fun q => q.id == pid) = some i)
    (hp : s.players[i]? = some p) :
    (handleAddTime pid delta s).players =
      s.players.set i
        { p with
            timeLeft := p.timeLeft + delta
            outOfTime := if p.timeLeft + delta > 0 then false else p.outOfTime } := by
  rw [handleAddTime_found s pid delta i p hidx hp]

/-- Counterexample to C3 as stated: one player holding 5 seconds,
`addTime(0, -10)` stores `timeLeft = -5`, which differs from
`max(5 + (-10), 0) = 0` and is negative. -/
theorem addTime_clamp_cex :
    ((handleAddTime 0 (-10)
        { players := [⟨0, "Player 1", 5, false, false⟩]
          currentPlayerIndex := 0, isRunning := false, history := [] }).players.map
        Player.timeLeft = [-5]) ∧
    ¬ ((-5 : Int) = max (5 + (-10)) 0) ∧ ¬ ((0 : Int) ≤ -5) := by decide

/-- Witness for C3 (amended) at the same concrete input. -/
theorem addTime_unclamped_witness :
    (handleAddTime 0 (-10)
        { players := [⟨0, "Player 1", 5, false, false⟩]
          currentPlayerIndex := 0, isRunning := false, history := [] }).players =
      [⟨0, "Player 1", -5, false, false⟩] := by
  have h := addTime_unclamped
    { players := [⟨0, "Player 1", 5, false, false⟩]
      currentPlayerIndex := 0, isRunning := false, history := [] }
    0 (-10) 0 ⟨0, "Player 1", 5, false, false⟩ (by decide) rfl
  exact h.trans (by decide)

/-- **C2** (amended): for a player `p` holding `timeLeft = t`,
`addTime(p.id, -t)` leaves `timeLeft` exactly 0 with both status flags
unchanged — `handleAddTime` never sets `OutOfTime`, so an active player
stays active (not flagged) at 0 seconds; a subsequent `addTime(p.id, +1)`
leaves `timeLeft = 1` with `outOfTime` cleared (active again when not
dead). -/
theorem addTime_toZero_staysActive (s : GameState) (pid : Nat) (i : Nat) (p : Player)
    (hidx : s.players.findIdx? (fun q => q.id == pid) = some i)
    (hp : s.players[i]? = some p) :
    ((handleAddTime pid (-p.timeLeft) s).players[i]? = some { p with timeLeft := 0 }) ∧
    ((handleAddTime pid 1 (handleAddTime pid (-p.timeLeft) s)).players[i]? =
      some { p with timeLeft := 1, outOfTime := false }) := by
  have hlt : i < s.players.length := (List.getElem?_eq_some.mp hp).1
  obtain ⟨hlt', hpi, -⟩ := List.findIdx?_eq_some_iff_getElem.mp hidx
  have hgp : s.players[i] = p := by
    obtain ⟨h, hh⟩ := List.getElem?_eq_some.mp hp
    exact hh
  have hprp : (p.id == pid) = true := by rw [← hgp]; exact hpi
  have h1 := handleAddTime_found s pid (-p.timeLeft) i p hidx hp
  have hz : p.timeLeft + -p.timeLeft = 0 := by omega
  have hfirst : (handleAddTime pid (-p.timeLeft) s).players[i]? =
      some { p with timeLeft := 0 } := by
    rw [h1]
    simp only []
    rw [List.getElem?_set_self (by simpa using hlt)]
    simp [hz]
  refine ⟨hfirst, ?_⟩
  have hidx2 : (handleAddTime pid (-p.timeLeft) s).players.findIdx?
      (fun q => q.id == pid) = some i := by
    rw [h1]
    exact findIdx?_set_of_pred hidx (by simpa using hprp)
  have h2 := handleAddTime_found (handleAddTime pid (-p.timeLeft) s) pid 1 i
    { p with timeLeft := 0 } hidx2 hfirst
  rw [h2]
  simp only []
  rw [List.getElem?_set_self]
  · norm_num
  · rw [h1]
    simpa using hlt

/-- Counterexample to C2 as stated: an active player holding 5 seconds is
driven to exactly 0 by `addTime(0, -5)`, yet `outOfTime` remains `false` —
the claim demanded status `OutOfTime`. -/
theorem addTime_toZero_cex :
    ((handleAddTime 0 (-5)
        { players := [⟨0, "Player 1", 5, false, false⟩]
          currentPlayerIndex := 0, isRunning := false, history := [] }).players.map
        Player.timeLeft = [0]) ∧
    ((handleAddTime 0 (-5)
        { players := [⟨0, "Player 1", 5, false, false⟩]
          currentPlayerIndex := 0, isRunning := false, history := [] }).players.map
        Player.outOfTime = [false]) := by decide

/-- Witness for C2 (amended) at the same concrete input, second call
included. -/
theorem addTime_toZero_staysActive_witness :
    ((handleAddTime 0 (-5)
        { players := [⟨0, "Player 1", 5, false, false⟩]
          currentPlayerIndex := 0, isRunning := false, history := [] }).players[0]? =
      some ⟨0, "Player 1", 0, false, false⟩) ∧
    ((handleAddTime 0 1 (handleAddTime 0 (-5)
        { players := [⟨0, "Player 1", 5, false, false⟩]
          currentPlayerIndex := 0, isRunning := false, history := [] })).players[0]? =
      some ⟨0, "Player 1", 1, false, false⟩) :=
  addTime_toZero_staysActive
    { players := [⟨0, "Player 1", 5, false, false⟩]
      currentPlayerIndex := 0, isRunning := false, history := [] }
    0 0 ⟨0, "Player 1", 5, false, false⟩ (by decide) rfl

/-! ## C10 — addTime on a missing id, and the undo round trip -/

/-- `game.players / currentPlayerIndex / isRunning` of `s'` are exactly
those of `s` — what `undo` is required to restore. -/
def RestoresTo (s' s : GameState) : Prop :=
  s'.players = s.players ∧
  s'.currentPlayerIndex = s.currentPlayerIndex ∧
  s'.isRunning = s.isRunning

lemma handleUndo_pushHistory (s : GameState) : handleUndo (pushHistory s) = s := by
  unfold handleUndo pushHistory
  simp

lemma restoresTo_of_pushed {s s' : GameState}
    (h : s'.history = s.history ++ [⟨s.players, s.currentPlayerIndex, s.isRunning⟩]) :
    RestoresTo (handleUndo s') s := by
  unfold handleUndo
  simp [h, List.getLast?_concat, RestoresTo]

lemma handleAddTime_history (pid : Nat) (sec : Int) (s : GameState) :
    (handleAddTime pid sec s).history =
      s.history ++ [⟨s.players, s.currentPlayerIndex, s.isRunning⟩] := by
  unfold handleAddTime
  split
  · rfl
  · split
    · rfl
    · rfl

/-- **C10**: when no player carries `playerId`, `addTime` leaves `players`,
`currentPlayerIndex` and `isRunning` untouched but still appends one
snapshot — equal to the pre-call state — to the history stack, so an
immediately following `undo` merely restores the state already current. -/
theorem addTime_missingId_snapshot (s : GameState) (pid : Nat) (delta : Int)
    (h : ∀ p ∈ s.players, p.id ≠ pid) :
    (handleAddTime pid delta s).players = s.players ∧
    (handleAddTime pid delta s).currentPlayerIndex = s.currentPlayerIndex ∧
    (handleAddTime pid delta s).isRunning = s.isRunning ∧
    (handleAddTime pid delta s).history =
      s.history ++ [⟨s.players, s.currentPlayerIndex, s.isRunning⟩] ∧
    handleUndo (handleAddTime pid delta s) = s := by
  have hidx : s.players.findIdx? (fun q => q.id == pid) = none := by
    rw [List.findIdx?_eq_none_iff]
    intro x hx
    simpa using h x hx
  have h1 : handleAddTime pid delta s = pushHistory s := by
    unfold handleAddTime
    rw [show (pushHistory s).players = s.players from rfl, hidx]
  rw [h1]
  exact ⟨rfl, rfl, rfl, rfl, handleUndo_pushHistory s⟩

/-- Witness for C10: a two-player game hit with `addTime(99, 10)` — id 99
does not exist; the undo after it restores the very same state. -/
theorem addTime_missingId_snapshot_witness :
    handleUndo (handleAddTime 99 10
        { players := [⟨0, "Player 1", 30, false, false⟩, ⟨1, "Player 2", 30, false, false⟩]
          currentPlayerIndex := 1, isRunning := true, history := [] }) =
      { players := [⟨0, "Player 1", 30, false, false⟩, ⟨1, "Player 2", 30, false, false⟩]
        currentPlayerIndex := 1, isRunning := true, history := [] } :=
  (addTime_missingId_snapshot
    { players := [⟨0, "Player 1", 30, false, false⟩, ⟨1, "Player 2", 30, false, false⟩]
      currentPlayerIndex := 1, isRunning := true, history := [] }
    99 10 (by decide)).2.2.2.2

/-! ## C4 — the undo round trip -/

lemma handleStartStop_history (s : GameState)
    (hg : s.players.any Player.eligible = true) :
    (handleStartStop s).history =
      s.history ++ [⟨s.players, s.currentPlayerIndex, s.isRunning⟩] := by
  unfold handleStartStop
  rw [if_pos hg]
  rfl

lemma handleSeatClick_history_running (inc : Int) (s : GameState) (p : Player)
    (hp : s.players[s.currentPlayerIndex]? = some p)
    (hdead : p.dead = false) (hout : p.outOfTime = false)
    (hrun : s.isRunning = true) :
    (handleSeatClick inc s).history =
      s.history ++ [⟨s.players, s.currentPlayerIndex, s.isRunning⟩] := by
  unfold handleSeatClick
  simp [hp, hdead, hout, hrun, pushHistory]

lemma toggleElimination_history (pid : Nat) (s : GameState) (p : Player)
    (hfind : s.players.find? (fun q => q.id == pid) = some p) :
    (toggleElimination pid s).1.history =
      s.history ++ [⟨s.players, s.currentPlayerIndex, s.isRunning⟩] := by
  unfold toggleElimination
  simp only [hfind]
  split
  · split
    · rfl
    · rfl
  · split
    · rfl
    · rfl

lemma handleDragEnd_history (i j : Nat) (s : GameState) (hne : i ≠ j) :
    (handleDragEnd i j s).history =
      s.history ++ [⟨s.players, s.currentPlayerIndex, s.isRunning⟩] := by
  unfold handleDragEnd
  rw [if_neg hne]
  rfl

/-- **C4**: for each mutating operation other than `tick` and `newGame` —
`toggleRunning`, `advanceTurn` (seat click while running),
`resumeFromPause` (seat click while paused), `addTime`,
`toggleElimination`, `reorder` (`handleDragEnd`), `renameAll` — an
execution that passes the operation's guard pushes exactly one snapshot,
and the immediately following `undo` restores the prior `players`,
`currentPlayerIndex` and `running` exactly. -/
theorem undo_roundTrip :
    (∀ s : GameState, s.players.any Player.eligible = true →
      RestoresTo (handleUndo (handleStartStop s)) s) ∧
    (∀ (inc : Int) (s : GameState) (p : Player),
      s.players[s.currentPlayerIndex]? = some p →
      p.dead = false → p.outOfTime = false → s.isRunning = true →
      RestoresTo (handleUndo (handleSeatClick inc s)) s) ∧
    (∀ (inc : Int) (s : GameState) (p : Player),
      s.players[s.currentPlayerIndex]? = some p →
      p.dead = false → p.outOfTime = false → s.isRunning = false →
      s.players.any Player.eligible = true →
      RestoresTo (handleUndo (handleSeatClick inc s)) s) ∧
    (∀ (pid : Nat) (sec : Int) (s : GameState),
      RestoresTo (handleUndo (handleAddTime pid sec s)) s) ∧
    (∀ (pid : Nat) (s : GameState) (p : Player),
      s.players.find? (fun q => q.id == pid) = some p →
      RestoresTo (handleUndo (toggleElimination pid s).1) s) ∧
    (∀ (i j : Nat) (s : GameState), i ≠ j →
      RestoresTo (handleUndo (handleDragEnd i j s)) s) ∧
    (∀ (f : Nat → String) (s : GameState),
      RestoresTo (handleUndo (saveAllNames (renameWith f s.players) s)) s) := by
  refine ⟨fun s hg => ?_, fun inc s p hp hd ho hr => ?_,
    fun inc s p hp hd ho hr hg => ?_, fun pid sec s => ?_,
    fun pid s p hfind => ?_, fun i j s hne => ?_, fun f s => ?_⟩
  · exact restoresTo_of_pushed (handleStartStop_history s hg)
  · exact restoresTo_of_pushed (handleSeatClick_history_running inc s p hp hd ho hr)
  · have hclick : handleSeatClick inc s = handleStartStop s := by
      unfold handleSeatClick
      simp [hp, hd, ho, hr]
    rw [hclick]
    exact restoresTo_of_pushed (handleStartStop_history s hg)
  · exact restoresTo_of_pushed (handleAddTime_history pid sec s)
  · exact restoresTo_of_pushed (toggleElimination_history pid s p hfind)
  · exact restoresTo_of_pushed (handleDragEnd_history i j s hne)
  · exact restoresTo_of_pushed rfl

/-- Witness for C4: all seven operation kinds round-trip through `undo` at
concrete two-player states (running where the guard wants running, paused
for toggle/resume). -/
theorem undo_roundTrip_witness :
    RestoresTo (handleUndo (handleStartStop
      { players := [⟨0, "Player 1", 30, false, false⟩, ⟨1, "Player 2", 30, false, false⟩]
        currentPlayerIndex := 0, isRunning := false, history := [] }))
      { players := [⟨0, "Player 1", 30, false, false⟩, ⟨1, "Player 2", 30, false, false⟩]
        currentPlayerIndex := 0, isRunning := false, history := [] } ∧
    RestoresTo (handleUndo (handleSeatClick 3
      { players := [⟨0, "Player 1", 30, false, false⟩, ⟨1, "Player 2", 30, false, false⟩]
        currentPlayerIndex := 0, isRunning := true, history := [] }))
      { players := [⟨0, "Player 1", 30, false, false⟩, ⟨1, "Player 2", 30, false, false⟩]
        currentPlayerIndex := 0, isRunning := true, history := [] } ∧
    RestoresTo (handleUndo (handleSeatClick 3
      { players := [⟨0, "Player 1", 30, false, false⟩, ⟨1, "Player 2", 30, false, false⟩]
        currentPlayerIndex := 0, isRunning := false, history := [] }))
      { players := [⟨0, "Player 1", 30, false, false⟩, ⟨1, "Player 2", 30, false, false⟩]
        currentPlayerIndex := 0, isRunning := false, history := [] } ∧
    RestoresTo (handleUndo (handleAddTime 0 7
      { players := [⟨0, "Player 1", 30, false, false⟩, ⟨1, "Player 2", 30, false, false⟩]
        currentPlayerIndex := 0, isRunning := true, history := [] }))
      { players := [⟨0, "Player 1", 30, false, false⟩, ⟨1, "Player 2", 30, false, false⟩]
        currentPlayerIndex := 0, isRunning := true, history := [] } ∧
    RestoresTo (handleUndo (toggleElimination 0
      { players := [⟨0, "Player 1", 30, false, false⟩, ⟨1, "Player 2", 30, false, false⟩]
        currentPlayerIndex := 0, isRunning := true, history := [] }).1)
      { players := [⟨0, "Player 1", 30, false, false⟩, ⟨1, "Player 2", 30, false, false⟩]
        currentPlayerIndex := 0, isRunning := true, history := [] } ∧
    RestoresTo (handleUndo (handleDragEnd 0 1
      { players := [⟨0, "Player 1", 30, false, false⟩, ⟨1, "Player 2", 30, false, false⟩]
        currentPlayerIndex := 0, isRunning := true, history := [] }))
      { players := [⟨0, "Player 1", 30, false, false⟩, ⟨1, "Player 2", 30, false, false⟩]
        currentPlayerIndex := 0, isRunning := true, history := [] } ∧
    RestoresTo (handleUndo (saveAllNames (renameWith (fun _ => "Alice")
      [⟨0, "Player 1", 30, false, false⟩, ⟨1, "Player 2", 30, false, false⟩])
      { players := [⟨0, "Player 1", 30, false, false⟩, ⟨1, "Player 2", 30, false, false⟩]
        currentPlayerIndex := 0, isRunning := true, history := [] }))
      { players := [⟨0, "Player 1", 30, false, false⟩, ⟨1, "Player 2", 30, false, false⟩]
        currentPlayerIndex := 0, isRunning := true, history := [] } :=
  ⟨undo_roundTrip.1 _ (by decide),
   undo_roundTrip.2.1 3 _ ⟨0, "Player 1", 30, false, false⟩ rfl rfl rfl rfl,
   undo_roundTrip.2.2.1 3 _ ⟨0, "Player 1", 30, false, false⟩ rfl rfl rfl rfl (by decide),
   undo_roundTrip.2.2.2.1 0 7 _,
   undo_roundTrip.2.2.2.2.1 0 _ ⟨0, "Player 1", 30, false, false⟩ (by decide),
   undo_roundTrip.2.2.2.2.2.1 0 1 _ (by decide),
   undo_roundTrip.2.2.2.2.2.2 (fun _ => "Alice")
     { players := [⟨0, "Player 1", 30, false, false⟩, ⟨1, "Player 2", 30, false, false⟩]
       currentPlayerIndex := 0, isRunning := true, history := [] }⟩

/-! ## C8 — eliminating the current seat while running -/

/-- **C8**: killing the current seat's (alive) player while the clock runs
pauses the game; `currentPlayerIndex` advances to the next eligible seat
when one exists (no notice); when none exists, the "No active players
left!" notice fires, `running` is false, and `currentPlayerIndex` is
unchanged and points at a seat that is no longer eligible. -/
theorem eliminateCurrent_pausesAndAdvances (s : GameState) (pid : Nat) (p : Player)
    (hfind : s.players.find? (fun q => q.id == pid) = some p)
    (hcur : s.players[s.currentPlayerIndex]? = some p)
    (hdead : p.dead = false) (hrun : s.isRunning = true) :
    (toggleElimination pid s).1.isRunning = false ∧
    (∀ j, findNextActivePlayerIndex s.currentPlayerIndex (killToggled pid s.players) = some j →
      (toggleElimination pid s).1.currentPlayerIndex = j ∧
      (toggleElimination pid s).2 = false) ∧
    (findNextActivePlayerIndex s.currentPlayerIndex (killToggled pid s.players) = none →
      (toggleElimination pid s).1.currentPlayerIndex = s.currentPlayerIndex ∧
      (toggleElimination pid s).2 = true ∧
      ∀ q, (toggleElimination pid s).1.players[s.currentPlayerIndex]? = some q →
        q.eligible = false) := by
  have hpidp' := List.find?_some hfind
  have hpidp : (p.id == pid) = true := hpidp'
  have hb : (!p.dead && s.isRunning) = true := by rw [hdead, hrun]; rfl
  have hkill : ∀ q, (killToggled pid s.players)[s.currentPlayerIndex]? = some q →
      q.eligible = false := by
    intro q hq
    unfold killToggled at hq
    rw [List.getElem?_map, hcur] at hq
    simp only [Option.map_some', hpidp, if_true] at hq
    injection hq with hxq
    rw [← hxq]
    simp [Player.eligible, hdead]
  cases hnext : findNextActivePlayerIndex s.currentPlayerIndex (killToggled pid s.players) with
  | some j' =>
      have hres : toggleElimination pid s =
          ({ pushHistory s with
              players := killToggled pid s.players
              isRunning := false
              currentPlayerIndex := j' }, false) := by
        unfold toggleElimination
        simp only [hfind, hb, if_true, hnext]
      rw [hres]
      exact ⟨rfl, fun j hj => ⟨Option.some.inj hj, rfl⟩,
        fun hcontra => Option.noConfusion hcontra⟩
  | none =>
      have hres : toggleElimination pid s =
          ({ pushHistory s with
              players := killToggled pid s.players
              isRunning := false }, true) := by
        unfold toggleElimination
        simp only [hfind, hb, if_true, hnext]
      rw [hres]
      exact ⟨rfl, fun j hj => Option.noConfusion hj, fun _ => ⟨rfl, rfl, hkill⟩⟩

/-- Witness for C8, both arms: killing current player 0 in a two-player
running game advances to seat 1 with no notice; killing current player 0
when seat 1 is already dead leaves the index at 0 and fires the notice. -/
theorem eliminateCurrent_pausesAndAdvances_witness :
    ((toggleElimination 0
        { players := [⟨0, "Player 1", 30, false, false⟩, ⟨1, "Player 2", 30, false, false⟩]
          currentPlayerIndex := 0, isRunning := true, history := [] }).1.isRunning = false ∧
      (toggleElimination 0
        { players := [⟨0, "Player 1", 30, false, false⟩, ⟨1, "Player 2", 30, false, false⟩]
          currentPlayerIndex := 0, isRunning := true, history := [] }).1.currentPlayerIndex = 1) ∧
    ((toggleElimination 0
        { players := [⟨0, "Player 1", 30, false, false⟩, ⟨1, "Player 2", 30, false, true⟩]
          currentPlayerIndex := 0, isRunning := true, history := [] }).2 = true ∧
      (toggleElimination 0
        { players := [⟨0, "Player 1", 30, false, false⟩, ⟨1, "Player 2", 30, false, true⟩]
          currentPlayerIndex := 0, isRunning := true, history := [] }).1.currentPlayerIndex = 0) := by
  have h1 := eliminateCurrent_pausesAndAdvances
    { players := [⟨0, "Player 1", 30, false, false⟩, ⟨1, "Player 2", 30, false, false⟩]
      currentPlayerIndex := 0, isRunning := true, history := [] }
    0 ⟨0, "Player 1", 30, false, false⟩ rfl rfl rfl rfl
  have h2 := eliminateCurrent_pausesAndAdvances
    { players := [⟨0, "Player 1", 30, false, false⟩, ⟨1, "Player 2", 30, false, true⟩]
      currentPlayerIndex := 0, isRunning := true, history := [] }
    0 ⟨0, "Player 1", 30, false, false⟩ rfl rfl rfl rfl
  refine ⟨⟨h1.1, (h1.2.1 1 (by decide)).1⟩, ?_⟩
  have h2' := h2.2.2 (by decide)
  exact ⟨h2'.2.1, h2'.1⟩

/-! ## C9 — reorder (drag end) -/

/-- Counterexample to C9 as stated: with 3 players and
`currentPlayerIndex = 2`, moving seat 0 to seat 2 remaps the index to 1 in
the source (`prev > source.index && prev <= destination.index` is an
inclusive bound, and the old seat-2 player really does sit at position 1 of
`[B, C, A]`), while the claim's "strictly between … unchanged otherwise"
rule demands 2. -/
theorem reorder_remap_cex :
    (handleDragEnd 0 2
        { players := [⟨0, "A", 9, false, false⟩, ⟨1, "B", 9, false, false⟩,
            ⟨2, "C", 9, false, false⟩]
          currentPlayerIndex := 2, isRunning := false, history := [] }).currentPlayerIndex = 1 ∧
    (1 : Nat) ≠ 2 := by decide

/-- **C9** (amended): `handleDragEnd(fromIndex, toIndex)` with distinct
valid indices removes the player at `fromIndex` and reinserts it at
`toIndex` (seats between the two shift by one slot), and remaps
`currentPlayerIndex` with an inclusive bound at the destination: it becomes
`toIndex` if it equaled `fromIndex`, is decremented by 1 when
`fromIndex < cur ≤ toIndex` (moving forward), incremented by 1 when
`toIndex ≤ cur < fromIndex` (moving backward), and is unchanged otherwise;
the claim's two examples are unaffected: with 3 players and
`currentPlayerIndex = 1`, moving seat 0 to seat 2 yields index 0 and moving
seat 2 to seat 0 yields index 2. -/
theorem reorder_moves_and_remaps (s : GameState) (i j : Nat) (moved : Player)
    (hne : i ≠ j) (hidx : s.players[i]? = some moved)
    (hj : j ≤ (s.players.eraseIdx i).length) :
    ((handleDragEnd i j s).players = (s.players.eraseIdx i).insertIdx j moved ∧
     (handleDragEnd i j s).currentPlayerIndex =
       (if s.currentPlayerIndex = i then j
        else if i < s.currentPlayerIndex ∧ s.currentPlayerIndex ≤ j then
          s.currentPlayerIndex - 1
        else if s.currentPlayerIndex < i ∧ j ≤ s.currentPlayerIndex then
          s.currentPlayerIndex + 1
        else s.currentPlayerIndex)) ∧
    ((handleDragEnd 0 2
        { players := [⟨0, "A", 9, false, false⟩, ⟨1, "B", 9, false, false⟩,
            ⟨2, "C", 9, false, false⟩]
          currentPlayerIndex := 1, isRunning := false, history := [] }).currentPlayerIndex = 0 ∧
     (handleDragEnd 2 0
        { players := [⟨0, "A", 9, false, false⟩, ⟨1, "B", 9, false, false⟩,
            ⟨2, "C", 9, false, false⟩]
          currentPlayerIndex := 1, isRunning := false, history := [] }).currentPlayerIndex = 2) := by
  refine ⟨⟨?_, ?_⟩, by decide, by decide⟩
  · unfold handleDragEnd reorderList
    rw [if_neg hne]
    simp only [hidx]
    rw [Nat.min_eq_left hj]
  · unfold handleDragEnd
    rw [if_neg hne]

/-- Witness for C9 (amended): moving seat 0 to seat 2 in a three-player
game produces the rotated seating `[B, C, A]`. -/
theorem reorder_moves_and_remaps_witness :
    (handleDragEnd 0 2
        { players := [⟨0, "A", 9, false, false⟩, ⟨1, "B", 9, false, false⟩,
            ⟨2, "C", 9, false, false⟩]
          currentPlayerIndex := 1, isRunning := false, history := [] }).players =
      [⟨1, "B", 9, false, false⟩, ⟨2, "C", 9, false, false⟩, ⟨0, "A", 9, false, false⟩] := by
  have h := (reorder_moves_and_remaps
    { players := [⟨0, "A", 9, false, false⟩, ⟨1, "B", 9, false, false⟩,
        ⟨2, "C", 9, false, false⟩]
      currentPlayerIndex := 1, isRunning := false, history := [] }
    0 2 ⟨0, "A", 9, false, false⟩ (by decide) rfl (by decide)).1.1
  exact h.trans (by decide)
